import Mathlib

/-!
Verification of the WMCore DBSBuffer/DBSUpload file-ledger specification
against a shallow embedding of the repository's code.

The embedding covers:
* `UploadToDBS` (from
  `src/python/WMComponent/DBSUpload/Database/Interface/UploadToDBS.py`),
* the `DBSBufferFile` entity (its implementation is exercised by
  `test/python/WMComponent_t/DBSBuffer_t/DBSBufferFile_t.py`; the entity
  itself is modelled from the specification),
* the CRIC site-topology client (from
  `src/python/WMCore/Services/CRIC/CRIC.py`),
* `EmulatorHelper` (from `src/python/WMCore/Services/EmulatorSwitch.py`).

Python `set` values are modelled as duplicate-free lists built with
`setAdd`/`setUnion`; machine-level integers do not overflow in any of the
modelled code paths, so `Nat` is used directly.
-/

/-- Insert an element into a list with set semantics: no duplicate is
created when the element is already present (models Python `set.add`). -/
def setAdd {α : Type} [DecidableEq α] (xs : List α) (x : α) : List α :=
  if x ∈ xs then xs else xs ++ [x]

/-- Union of two lists with set semantics (models Python `set.update`). -/
def setUnion {α : Type} [DecidableEq α] (xs ys : List α) : List α :=
  ys.foldl setAdd xs

/-!
## The transaction scope

Modelled from the spec: the `TransactionScope` collaborator (§2 item 1, §6)
— `begin()`, `commit()`, `rollback()` and a live connection handle — is
provided by `WMCore.Database.Transaction`, which is not part of the visible
source.  A scope is a committed state together with an optional open
transaction holding the uncommitted view; `begin` opens a transaction whose
view starts at the current view, `commit` publishes the view, `rollback`
discards it.  Query executions run against the current view; outside any
open transaction they write straight through to the committed state (the
behaviour the entity tests rely on when they call entity methods without an
explicit `begin`).
-/

/-- A transaction scope over a store of type `σ`: the committed state plus
the uncommitted view of the open transaction, when one is open. -/
structure Tx (σ : Type) where
  committed : σ
  pending : Option σ
deriving DecidableEq, Repr

/-- The state currently visible through the scope's connection. -/
def Tx.view {σ : Type} (t : Tx σ) : σ :=
  t.pending.getD t.committed

/-- Python `begin()`: open a transaction whose uncommitted view starts at the
current view (a `begin` on an already-open transaction joins it). -/
def Tx.beginTx {σ : Type} (t : Tx σ) : Tx σ :=
  { committed := t.committed, pending := some t.view }

/-- Python `commit()`: publish the current view and close the transaction. -/
def Tx.commitTx {σ : Type} (t : Tx σ) : Tx σ :=
  { committed := t.view, pending := none }

/-- Python `rollback()`: discard the uncommitted view. -/
def Tx.rollbackTx {σ : Type} (t : Tx σ) : Tx σ :=
  { committed := t.committed, pending := none }

/-- Run a query against the scope: inside an open transaction the result
stays uncommitted; outside one it is written through to the committed
state. -/
def Tx.update {σ : Type} (t : Tx σ) (s : σ) : Tx σ :=
  match t.pending with
  | some _ => { committed := t.committed, pending := some s }
  | none => { committed := s, pending := none }

/-- The transaction-primitive calls an operation performs on the ambient
thread transaction, in order. -/
inductive TxEvent where
  | beginE : TxEvent
  | commitE : TxEvent
  | rollbackE : TxEvent
  | execE : String → TxEvent
deriving DecidableEq, Repr

/-!
## UploadToDBS

Translated from
`src/python/WMComponent/DBSUpload/Database/Interface/UploadToDBS.py`.
Each method reads the ambient transaction from `threading.currentThread()`
(modelled as the `Tx` argument, the per-thread state), calls
`myThread.transaction.begin()`, loads a DAO by name from the `WMFactory`,
executes it with `conn = myThread.transaction.conn,
transaction = myThread.transaction`, and calls
`myThread.transaction.commit()`.  The DAO bodies
(`FindUploadableDatasets`, `FindUploadableFiles`, `FindAlgos`,
`UpdateFilesStatus`) are not part of the visible source and are modelled
from the spec (§4.5); each DAO executes as one atomic statement, so a
failing execution leaves no partial writes (a `TransientStoreError`
propagates to the caller).
-/

/-- A row of the dbsbuffer file table as seen by the upload interface. -/
structure UploadRow where
  fileId : Nat
  lfn : String
  dataset : String
  algo : String × String × String × String
  status : String
deriving DecidableEq, Repr

/-- The store backing the upload interface. -/
abbrev UploadStore : Type := List UploadRow

/-- Modelled from the spec: the `FindUploadableDatasets` DAO (§4.5) returns
the dataset paths that have at least one file with status `NOTUPLOADED`. -/
def findUploadableDatasetsQ (s : UploadStore) : List String :=
  setUnion [] ((s.filter (fun r => r.status = "NOTUPLOADED")).map (fun r => r.dataset))

/-- Modelled from the spec: the `FindUploadableFiles` DAO (§4.5) returns up
to `maxfiles` file identities of the dataset that have status
`NOTUPLOADED`. -/
def findUploadableFilesQ (dataset : String) (maxfiles : Nat) (s : UploadStore) : List Nat :=
  ((s.filter (fun r => r.dataset = dataset ∧ r.status = "NOTUPLOADED")).map
    (fun r => r.fileId)).take maxfiles

/-- Modelled from the spec: the `FindAlgos` DAO (§4.5) returns the distinct
algorithm tuples used by files of the dataset. -/
def findAlgosQ (dataset : String) (s : UploadStore) :
    List (String × String × String × String) :=
  setUnion [] ((s.filter (fun r => r.dataset = dataset)).map (fun r => r.algo))

/-- Modelled from the spec: the `UpdateFilesStatus` DAO (§4.5) transitions
every listed file identity to status `UPLOADED` in one atomic statement. -/
def updateFilesStatusQ (files : List Nat) (s : UploadStore) : UploadStore :=
  s.map (fun r => if r.fileId ∈ files then { r with status := "UPLOADED" } else r)

/-- Method `UploadToDBS.findUploadableDatasets`: begin on the ambient transaction,
execute the `FindUploadableDatasets` DAO, commit, return the results.  The
returned trace records the transaction-primitive calls the method itself
made. -/
def UploadToDBS.findUploadableDatasets (t : Tx UploadStore) :
    List String × Tx UploadStore × List TxEvent :=
  let t1 := t.beginTx
  let results := findUploadableDatasetsQ t1.view
  (results, t1.commitTx,
    [TxEvent.beginE, TxEvent.execE ("FindUploadableDatasets"), TxEvent.commitE])

/-- Method `UploadToDBS.findUploadableFiles`: begin, execute `FindUploadableFiles`
with the dataset and `maxfiles`, commit, return the results. -/
def UploadToDBS.findUploadableFiles (dataset : String) (maxfiles : Nat)
    (t : Tx UploadStore) : List Nat × Tx UploadStore × List TxEvent :=
  let t1 := t.beginTx
  let results := findUploadableFilesQ dataset maxfiles t1.view
  (results, t1.commitTx,
    [TxEvent.beginE, TxEvent.execE ("FindUploadableFiles"), TxEvent.commitE])

/-- Method `UploadToDBS.findAlgos`: begin, execute `FindAlgos` with the dataset,
commit, return the results. -/
def UploadToDBS.findAlgos (dataset : String) (t : Tx UploadStore) :
    List (String × String × String × String) × Tx UploadStore × List TxEvent :=
  let t1 := t.beginTx
  let results := findAlgosQ dataset t1.view
  (results, t1.commitTx,
    [TxEvent.beginE, TxEvent.execE ("FindAlgos"), TxEvent.commitE])

/-- Method `UploadToDBS.updateFilesStatus`: begin on the ambient transaction,
execute the `UpdateFilesStatus` DAO, commit.  `ok` says whether the
underlying query execution succeeds; on failure the raised error
propagates out of the method — the code has no `try`/`except`, so neither
`commit` nor `rollback` runs and the transaction is left open.  Returns
the thread state, the success flag, and the trace of transaction calls. -/
def UploadToDBS.updateFilesStatus (files : List Nat) (ok : Bool)
    (t : Tx UploadStore) : Tx UploadStore × Bool × List TxEvent :=
  let t1 := t.beginTx
  if ok then
    let t2 := t1.update (updateFilesStatusQ files t1.view)
    (t2.commitTx, true,
      [TxEvent.beginE, TxEvent.execE ("UpdateFilesStatus"), TxEvent.commitE])
  else
    (t1, false, [TxEvent.beginE, TxEvent.execE ("UpdateFilesStatus")])

/-- A concrete thread state with one NOTUPLOADED file and no open
transaction. -/
def uploadTx0 : Tx UploadStore :=
  { committed := [{ fileId := 1, lfn := "/store/a", dataset := "/A/B/RECO",
                    algo := ("cmsRun", "CMSSW_2_1_8", "RECO", "HASH"),
                    status := "NOTUPLOADED" }],
    pending := none }

/-!
## CRIC site-topology client

Translated from `src/python/WMCore/Services/CRIC/CRIC.py`.  The
`data-processing` mapping fetched from the service is a list of rows, each
carrying a `phedex_name` (PNN) and a `psn_name` (PSN); it is passed as an
explicit argument.  Python `set` accumulators are modelled with
`setAdd`/`setUnion`; a `logger.warning` call is modelled by appending the
offending name to a warning list.
-/

/-- Python `str.endswith`. -/
def endswith (s suffix : String) : Bool :=
  decide (suffix.data.length ≤ s.data.length) &&
    (s.data.drop (s.data.length - suffix.data.length) == suffix.data)

/-- One row of the CRIC `data-processing` mapping. -/
structure CricMapItem where
  phedex_name : String
  psn_name : String
deriving DecidableEq, Repr

/-- The skip condition of `CRIC.PNNstoPSNs`:
`pnn == "T0_CH_CERN_Export" or pnn.endswith("_MSS") or
pnn.endswith("_Buffer")`. -/
def pnnSkip (pnn : String) : Bool :=
  pnn == "T0_CH_CERN_Export" || endswith pnn ("_MSS") || endswith pnn ("_Buffer")

/-- The loop of `CRIC.PNNstoPSNs`: fold over the input PNNs, skipping the
excluded ones with `continue`, unioning the matching PSNs into the result
set, and warning when a non-skipped PNN matches nothing. -/
def CRIC.PNNstoPSNsGo (mapping : List CricMapItem) :
    List String → List String × List String → List String × List String
  | [], acc => acc
  | pnn :: rest, acc =>
      if pnnSkip pnn then CRIC.PNNstoPSNsGo mapping rest acc
      else
        let psnSet := setUnion []
          ((mapping.filter (fun it => it.phedex_name == pnn)).map (fun it => it.psn_name))
        if psnSet.isEmpty then
          CRIC.PNNstoPSNsGo mapping rest (acc.1, acc.2 ++ [pnn])
        else
          CRIC.PNNstoPSNsGo mapping rest (setUnion acc.1 psnSet, acc.2)

/-- Method `CRIC.PNNstoPSNs(pnns)`: a single string is wrapped into a one-element
list; returns the accumulated PSN set (as a list) and the warned PNNs. -/
def CRIC.PNNstoPSNs (mapping : List CricMapItem) (pnns : Sum String (List String)) :
    List String × List String :=
  let pnnList := match pnns with
    | Sum.inl s => [s]
    | Sum.inr l => l
  CRIC.PNNstoPSNsGo mapping pnnList ([], [])

/-- The loop of `CRIC.PSNstoPNNs`: no skip condition; unions the matching
PNNs per PSN and warns when a PSN matches nothing. -/
def CRIC.PSNstoPNNsGo (mapping : List CricMapItem) :
    List String → List String × List String → List String × List String
  | [], acc => acc
  | psn :: rest, acc =>
      let pnnSet := setUnion []
        ((mapping.filter (fun it => it.psn_name == psn)).map (fun it => it.phedex_name))
      if pnnSet.isEmpty then
        CRIC.PSNstoPNNsGo mapping rest (acc.1, acc.2 ++ [psn])
      else
        CRIC.PSNstoPNNsGo mapping rest (setUnion acc.1 pnnSet, acc.2)

/-- Method `CRIC.PSNstoPNNs(psns)`: a single string is wrapped into a one-element
list; returns the accumulated PNN set (as a list) and the warned PSNs. -/
def CRIC.PSNstoPNNs (mapping : List CricMapItem) (psns : Sum String (List String)) :
    List String × List String :=
  let psnList := match psns with
    | Sum.inl s => [s]
    | Sum.inr l => l
  CRIC.PSNstoPNNsGo mapping psnList ([], [])

/-- A concrete CRIC `data-processing` mapping used by the witnesses. -/
def cricMap0 : List CricMapItem :=
  [{ phedex_name := "T1_US_FNAL_Disk", psn_name := "T1_US_FNAL" },
   { phedex_name := "T1_US_FNAL_MSS", psn_name := "T1_US_FNAL" },
   { phedex_name := "T2_CH_CERN", psn_name := "T2_CH_CERN" }]

/-!
## EmulatorHelper

Translated from `src/python/WMCore/Services/EmulatorSwitch.py`.  The class
attributes `PhEDEx` and `ReqMgr` start as `None` and are modelled as
`Option Bool`.  `setEmulators` raises `NotImplementedError` before any
assignment when `dbs` or `siteDB` is truthy; the raised message is
returned in the second component, `none` meaning no exception.
-/

/-- The class-level emulator flags of `EmulatorHelper`. -/
structure EmulatorHelperState where
  PhEDEx : Option Bool
  ReqMgr : Option Bool
deriving DecidableEq, Repr

/-- Method `EmulatorHelper.setEmulators(phedex, dbs, siteDB, requestMgr)`. -/
def EmulatorHelper.setEmulators (st : EmulatorHelperState)
    (phedex dbs siteDB requestMgr : Bool) : EmulatorHelperState × Option String :=
  if dbs || siteDB then
    (st, some ("There are no DBS or SiteDB emulators anymore. Use the mock-based emulators."))
  else
    ({ PhEDEx := some phedex, ReqMgr := some requestMgr }, none)

/-!
## The DBSBufferFile entity

Modelled from the spec: the `DBSBufferFile` implementation
(`WMComponent.DBSBuffer.Database.Interface.DBSBufferFile`) is not part of
the visible source — only its unit tests are
(`test/python/WMComponent_t/DBSBuffer_t/DBSBufferFile_t.py`).  The entity,
its store and its operations below follow §3 and §4.1–§4.3 of the spec:

* a `FileRecord` holds identity (id and/or LFN), descriptors, provenance,
  run provenance, a location set, lineage and a status (§3);
* lineage edges are recorded by LFN, independent of whether the referenced
  record has been persisted (§4.2), and a later `create()` for such an LFN
  attaches to the pre-existing edge (§4.1);
* `setLocation` has an immediate and a deferred mode; the deferred buffer
  (`newlocations`) is private to one instance (§4.3, §5);
* equality of records is equality of all scalar/descriptor fields (§4.1);
* `load(parentage=True)` materializes the parent records one level deep
  only — the parents are flat `FileData` values with no parents of their
  own (§4.1).
-/

/-- The algorithm provenance: the four-tuple identity plus the raw
configuration content, set atomically by `setAlgorithm` (§3, §4.1). -/
structure AlgoInfo where
  appName : String
  appVer : String
  appFam : String
  psetHash : String
  configContent : String
deriving DecidableEq, Repr

/-- A persisted file row of the DBSBuffer store. -/
structure FileRow where
  fid : Nat
  lfn : String
  size : Nat
  events : Nat
  checksums : List (String × String)
  algo : AlgoInfo
  datasetPath : String
  runs : List (Nat × List Nat)
  status : String
deriving DecidableEq, Repr

/-- The DBSBuffer store: file rows, the location relation (file id × site),
the lineage relation keyed by LFN (child LFN × parent LFN), and the next
fresh id. -/
structure BufStore where
  files : List FileRow
  locations : List (Nat × String)
  parentage : List (String × String)
  nextId : Nat
deriving DecidableEq, Repr

/-- The scalar/descriptor fields of an in-memory FileRecord; two records
are equal iff these fields all match (§4.1). -/
structure FileData where
  id : Option Nat
  lfn : Option String
  size : Nat
  events : Nat
  checksums : List (String × String)
  algo : Option AlgoInfo
  datasetPath : Option String
  runs : List (Nat × List Nat)
  locations : List String
  status : String
deriving DecidableEq, Repr

/-- An in-memory FileRecord instance: its scalar data, the private deferred
location buffer, and the parents view materialized by
`load(parentage=True)` — one level only, so parents are flat `FileData`
values. -/
structure DBSBufferFile where
  data : FileData
  newlocations : List String
  parents : List FileData
deriving DecidableEq, Repr

/-- A multi-valued string argument: a single string is accepted as
shorthand for a one-element set (§4.1, §9). -/
def locParam (p : Sum String (List String)) : List String :=
  match p with
  | Sum.inl s => [s]
  | Sum.inr l => setUnion [] l

/-- The FileRecord constructor: identity from LFN and/or id, descriptors,
and an initial location set that is buffered for persistence at
`create()` (§3, §4.1). -/
def DBSBufferFile.mkFile (lfn : Option String) (fid : Option Nat)
    (size events : Nat) (checksums : List (String × String))
    (locations : Sum String (List String)) : DBSBufferFile :=
  { data := { id := fid, lfn := lfn, size := size, events := events,
              checksums := checksums, algo := none, datasetPath := none,
              runs := [], locations := [], status := "NOTUPLOADED" },
    newlocations := locParam locations,
    parents := [] }

/-- Method `setAlgorithm`: atomically set the algorithm tuple and its raw config
content; must precede `create` (§4.1). -/
def DBSBufferFile.setAlgorithm (f : DBSBufferFile) (a : AlgoInfo) : DBSBufferFile :=
  { f with data := { f.data with algo := some a } }

/-- Method `setDatasetPath`: set the dataset path; must precede `create` (§4.1). -/
def DBSBufferFile.setDatasetPath (f : DBSBufferFile) (p : String) : DBSBufferFile :=
  { f with data := { f.data with datasetPath := some p } }

/-- Merge one `(run, sub-runs)` pair into a run list: when the run number
is already present its sub-run set is unioned in place, otherwise a new
entry is appended (§3, merge-only). -/
def addRunToList (runs : List (Nat × List Nat)) (r : Nat × List Nat) :
    List (Nat × List Nat) :=
  if runs.any (fun e => e.1 == r.1) then
    runs.map (fun e => if e.1 == r.1 then (e.1, setUnion e.2 r.2) else e)
  else runs ++ [r]

/-- Method `addRun`: merge one run into the record's run provenance (§4.1). -/
def DBSBufferFile.addRun (f : DBSBufferFile) (r : Nat × List Nat) : DBSBufferFile :=
  { f with data := { f.data with runs := addRunToList f.data.runs r } }

/-- Method `addRunSet`: merge a collection of runs (§4.1). -/
def DBSBufferFile.addRunSet (f : DBSBufferFile) (rs : List (Nat × List Nat)) :
    DBSBufferFile :=
  rs.foldl DBSBufferFile.addRun f

/-- The error taxonomy of §7 (`TransientStoreError` is modelled at the
call sites that can fail, not here). -/
inductive DBSError where
  | validationError : DBSError
  | duplicateError : DBSError
  | notFoundError : DBSError
deriving DecidableEq, Repr

/-- Resolve the row a record denotes: by LFN when the LFN is known,
otherwise by id (§3: loading resolves the other identity field). -/
def BufStore.rowFor (s : BufStore) (f : DBSBufferFile) : Option FileRow :=
  match f.data.lfn with
  | some l => s.files.find? (fun r => r.lfn == l)
  | none =>
      match f.data.id with
      | some i => s.files.find? (fun r => r.fid == i)
      | none => none

/-- Method `exists()`: the numeric id of the record in the currently visible
state, or `none` — absence is data, not a failure, so this never
raises (§4.1, §7). -/
def DBSBufferFile.existsId (f : DBSBufferFile) (t : Tx BufStore) : Option Nat :=
  (t.view.rowFor f).map (fun r => r.fid)

/-- Store-level creation: persist a new row under a fresh id together with
the pending location data. -/
def BufStore.createFile (s : BufStore) (l : String) (a : AlgoInfo) (d : String)
    (size events : Nat) (checksums : List (String × String))
    (runs : List (Nat × List Nat)) (locs : List String) : Nat × BufStore :=
  let i := s.nextId
  let row : FileRow :=
    { fid := i, lfn := l, size := size, events := events,
      checksums := checksums, algo := a, datasetPath := d, runs := runs,
      status := "NOTUPLOADED" }
  (i, { files := s.files ++ [row],
        locations := setUnion s.locations (locs.map (fun site => (i, site))),
        parentage := s.parentage,
        nextId := i + 1 })

/-- Method `create()`: requires algorithm and dataset path (else
`ValidationError`) and a fresh LFN (else `DuplicateError`); persists the
row and all pending run/location data and assigns the id (§4.1).  Edges
recorded earlier against this LFN are attached by construction, since the
lineage relation is keyed by LFN. -/
def DBSBufferFile.create (f : DBSBufferFile) (t : Tx BufStore) :
    Except DBSError (DBSBufferFile × Tx BufStore) :=
  match f.data.algo, f.data.datasetPath, f.data.lfn with
  | some a, some d, some l =>
      if t.view.files.any (fun r => r.lfn == l) then
        Except.error DBSError.duplicateError
      else
        let pendingLocs := setUnion f.data.locations f.newlocations
        let res := BufStore.createFile t.view l a d f.data.size f.data.events
          f.data.checksums f.data.runs pendingLocs
        Except.ok
          ({ data :=
               { f.data with
                 id := some res.1, locations := pendingLocs,
                 status := "NOTUPLOADED" },
             newlocations := [],
             parents := f.parents },
           t.update res.2)
  | _, _, _ => Except.error DBSError.validationError

/-- Method `delete()`: remove the record together with its location and
lineage-edge rows; `NotFoundError` when the record does not exist (§4.1). -/
def DBSBufferFile.delete (f : DBSBufferFile) (t : Tx BufStore) :
    Except DBSError (Tx BufStore) :=
  match t.view.rowFor f with
  | none => Except.error DBSError.notFoundError
  | some row =>
      Except.ok (t.update
        { files := t.view.files.filter (fun r => !(r.fid == row.fid)),
          locations := t.view.locations.filter (fun p => !(p.1 == row.fid)),
          parentage := t.view.parentage.filter
            (fun e => !(e.1 == row.lfn) && !(e.2 == row.lfn)),
          nextId := t.view.nextId })

/-- Record lineage edges, idempotently (§4.2). -/
def BufStore.addEdges (s : BufStore) (edges : List (String × String)) : BufStore :=
  { s with parentage := setUnion s.parentage edges }

/-- Method `addParents(lfns)`: record one edge per parent LFN; the parents need
not exist as records (§4.1, §4.2). -/
def DBSBufferFile.addParents (f : DBSBufferFile) (lfns : List String)
    (t : Tx BufStore) : Tx BufStore :=
  match f.data.lfn with
  | some l => t.update (t.view.addEdges (lfns.map (fun p => (l, p))))
  | none => t

/-- Method `addChildren(lfns)`: record one edge per child LFN; a single string is
accepted for the collection (§4.1). -/
def DBSBufferFile.addChildren (f : DBSBufferFile) (lfns : Sum String (List String))
    (t : Tx BufStore) : Tx BufStore :=
  match f.data.lfn with
  | some l => t.update (t.view.addEdges ((locParam lfns).map (fun c => (c, l))))
  | none => t

/-- Flush the deferred location buffer: persist the buffered sites for
this record's id, fold them into the in-memory location set, clear the
buffer (§4.1, §4.3). -/
def DBSBufferFile.updateLocations (f : DBSBufferFile) (t : Tx BufStore) :
    DBSBufferFile × Tx BufStore :=
  match f.data.id with
  | some i =>
      ({ data := { f.data with locations := setUnion f.data.locations f.newlocations },
         newlocations := [],
         parents := f.parents },
       t.update { t.view with
         locations := setUnion t.view.locations
           (f.newlocations.map (fun site => (i, site))) })
  | none => (f, t)

/-- Method `setLocation(sites, immediateSave)`: add the sites (a single string or
a collection) to the deferred buffer; in immediate mode flush the buffer
at once, in deferred mode leave it in this instance's memory only (§4.1,
§4.3). -/
def DBSBufferFile.setLocation (f : DBSBufferFile) (sites : Sum String (List String))
    (immediateSave : Bool) (t : Tx BufStore) : DBSBufferFile × Tx BufStore :=
  let f1 : DBSBufferFile :=
    { f with newlocations :=
        match sites with
        | Sum.inl s => setAdd f.newlocations s
        | Sum.inr l => setUnion f.newlocations l }
  if immediateSave then f1.updateLocations t else (f1, t)

/-- The scalar data a row loads into an instance, locations included. -/
def BufStore.loadData (s : BufStore) (row : FileRow) : FileData :=
  { id := some row.fid, lfn := some row.lfn, size := row.size,
    events := row.events, checksums := row.checksums, algo := some row.algo,
    datasetPath := some row.datasetPath, runs := row.runs,
    locations := (s.locations.filter (fun p => p.1 == row.fid)).map (fun p => p.2),
    status := row.status }

/-- A parent declared by LFN but not yet created resolves lazily to a stub
record carrying only the LFN (§4.1, §4.2). -/
def stubParent (l : String) : FileData :=
  { id := none, lfn := some l, size := 0, events := 0, checksums := [],
    algo := none, datasetPath := none, runs := [], locations := [],
    status := "NOTUPLOADED" }

/-- The parent LFNs an LFN declares. -/
def BufStore.parentsOf (s : BufStore) (l : String) : List String :=
  (s.parentage.filter (fun e => e.1 == l)).map (fun e => e.2)

/-- Method `load(parentage)`: populate all scalar/descriptor/location/run fields
from the visible state by id or LFN; with `parentage` also materialize the
parent records, one level deep (§4.1). -/
def DBSBufferFile.load (f : DBSBufferFile) (parentage : Bool) (t : Tx BufStore) :
    DBSBufferFile :=
  match t.view.rowFor f with
  | none => f
  | some row =>
      { data := t.view.loadData row,
        newlocations := [],
        parents :=
          if parentage then
            (t.view.parentsOf row.lfn).map (fun p =>
              match t.view.files.find? (fun r => r.lfn == p) with
              | some prow => t.view.loadData prow
              | none => stubParent p)
          else f.parents }

/-- Method `getParentLFNs()`: the parent LFNs of this record, resolved from the
visible state (§4.1). -/
def DBSBufferFile.getParentLFNs (f : DBSBufferFile) (t : Tx BufStore) : List String :=
  match f.data.lfn with
  | some l => t.view.parentsOf l
  | none => []

/-- Well-formedness of a store: ids are positive and below the fresh-id
counter, for file rows and location rows alike. -/
def BufStore.WF (s : BufStore) : Prop :=
  0 < s.nextId ∧
  (∀ r ∈ s.files, r.fid < s.nextId) ∧
  (∀ p ∈ s.locations, p.1 < s.nextId)

instance (s : BufStore) : Decidable s.WF := by
  unfold BufStore.WF
  infer_instance

/-- A record built the way every test builds one: constructor, then
`setAlgorithm`, then `setDatasetPath`, then runs. -/
def builtRecord (l : String) (size events : Nat)
    (cks : List (String × String)) (locs : List String)
    (rs : List (Nat × List Nat)) (a : AlgoInfo) (d : String) : DBSBufferFile :=
  (((DBSBufferFile.mkFile (some l) none size events cks
      (Sum.inr locs)).setAlgorithm a).setDatasetPath d).addRunSet rs

/-- A fresh instance carrying only an LFN, as built for a reload. -/
def blankByLfn (l : String) : DBSBufferFile :=
  DBSBufferFile.mkFile (some l) none 0 0 [] (Sum.inr [])

/-- A fresh instance carrying only an id, as built for a reload. -/
def blankById (i : Nat) : DBSBufferFile :=
  DBSBufferFile.mkFile none (some i) 0 0 [] (Sum.inr [])

/-- A fixed algorithm value, as used throughout the entity tests. -/
def algo0 : AlgoInfo :=
  { appName := "cmsRun", appVer := "CMSSW_2_1_8", appFam := "RECO",
    psetHash := "GIBBERISH", configContent := "MOREGIBBERISH" }

/-- An empty DBSBuffer store. -/
def emptyBufStore : BufStore :=
  { files := [], locations := [], parentage := [], nextId := 1 }

/-- An empty-store transaction scope with no open transaction. -/
def bufTx0 : Tx BufStore :=
  { committed := emptyBufStore, pending := none }

/-!
## Claim C3: rollback reverses create, delete, addChildren and
immediate-mode setLocation
-/

/-- One mutating entity operation run against the ambient scope, as in the
transactional tests: `create`, `delete`, `addChildren`, or immediate-mode
`setLocation`. -/
inductive BufOp where
  | createOp : DBSBufferFile → BufOp
  | deleteOp : DBSBufferFile → BufOp
  | addChildrenOp : DBSBufferFile → Sum String (List String) → BufOp
  | setLocationOp : DBSBufferFile → Sum String (List String) → BufOp
deriving Repr

/-- Run one operation for its store effect (a failed `create`/`delete`
raises and leaves the scope as it was). -/
def stepOp (op : BufOp) (t : Tx BufStore) : Tx BufStore :=
  match op with
  | BufOp.createOp f =>
      match f.create t with
      | Except.ok res => res.2
      | Except.error _ => t
  | BufOp.deleteOp f =>
      match f.delete t with
      | Except.ok t2 => t2
      | Except.error _ => t
  | BufOp.addChildrenOp f ls => f.addChildren ls t
  | BufOp.setLocationOp f ss => (f.setLocation ss true t).2

/-- A child record, a parent record and an operation list exercising all
four operation kinds inside one transaction. -/
def opsW : List BufOp :=
  [BufOp.createOp (builtRecord ("a") 1024 10 [] ["s1"] [(1, [45])] algo0 ("/A/B/RECO")),
   BufOp.createOp (builtRecord ("p") 1024 20 [] [] [] algo0 ("/A/B/RECO")),
   BufOp.addChildrenOp (blankByLfn ("p")) (Sum.inl ("a")),
   BufOp.setLocationOp (blankById 1) (Sum.inr ["s2"]),
   BufOp.deleteOp (blankByLfn ("p"))]

/-- The row `create()` persists for a record with LFN `l`. -/
def createdRow (f : DBSBufferFile) (t : Tx BufStore) (a : AlgoInfo)
    (d l : String) : FileRow :=
  { fid := t.view.nextId, lfn := l, size := f.data.size, events := f.data.events,
    checksums := f.data.checksums, algo := a, datasetPath := d,
    runs := f.data.runs, status := "NOTUPLOADED" }

/-- The store state after a successful `create()`. -/
def createdStore (f : DBSBufferFile) (t : Tx BufStore) (a : AlgoInfo)
    (d l : String) : BufStore :=
  { files := t.view.files ++ [createdRow f t a d l],
    locations := setUnion t.view.locations
      ((setUnion f.data.locations f.newlocations).map
        (fun site => (t.view.nextId, site))),
    parentage := t.view.parentage,
    nextId := t.view.nextId + 1 }

/-- The in-memory record after a successful `create()`. -/
def createdFile (f : DBSBufferFile) (t : Tx BufStore) : DBSBufferFile :=
  { data :=
      { f.data with
        id := some t.view.nextId,
        locations := setUnion f.data.locations f.newlocations,
        status := "NOTUPLOADED" },
    newlocations := [],
    parents := f.parents }

/-!
## Claim C6: lazy lineage resolution
-/

/-- A parent record as the lineage test builds one: identified by LFN,
with algorithm and dataset path set. -/
def parentRecord (p : String) : DBSBufferFile :=
  builtRecord p 1024 10 [] [] [] algo0 ("/ds/RAW")

/-- Create one parent record against the scope; a failed `create` raises
and leaves the scope unchanged. -/
def createStep (p : String) (t : Tx BufStore) : Tx BufStore :=
  match (parentRecord p).create t with
  | Except.ok res => res.2
  | Except.error _ => t

/-- Create each listed parent independently, in order. -/
def createParents (ps : List String) (t : Tx BufStore) : Tx BufStore :=
  ps.foldl (fun acc p => createStep p acc) t

/-- The pre-existing child row used by the lineage witness. -/
def xrowW : FileRow :=
  { fid := 1, lfn := "x", size := 1024, events := 10, checksums := [],
    algo := algo0, datasetPath := "/ds", runs := [], status := "NOTUPLOADED" }

/-- A scope holding only the child record `x`, with no open transaction. -/
def bufTxX : Tx BufStore :=
  { committed := { files := [xrowW], locations := [], parentage := [], nextId := 2 },
    pending := none }

theorem mem_setAdd {α : Type} [DecidableEq α] (xs : List α) (x y : α) :
    y ∈ setAdd xs x ↔ y ∈ xs ∨ y = x := by
  unfold setAdd
  by_cases h : x ∈ xs
  · simp only [if_pos h]
    constructor
    · exact fun hy => Or.inl hy
    · rintro (hy | rfl) <;> [exact hy; exact h]
  · simp [if_neg h]

theorem nodup_setAdd {α : Type} [DecidableEq α] (xs : List α) (x : α)
    (h : xs.Nodup) : (setAdd xs x).Nodup := by
  unfold setAdd
  by_cases hx : x ∈ xs
  · simpa [if_pos hx]
  · simp [if_neg hx, List.nodup_append, h, hx]

theorem nodup_setUnion {α : Type} [DecidableEq α] (xs ys : List α)
    (h : xs.Nodup) : (setUnion xs ys).Nodup := by
  induction ys generalizing xs with
  | nil => simpa [setUnion]
  | cons y ys ih =>
      simpa [setUnion, List.foldl_cons] using ih (setAdd xs y) (nodup_setAdd xs y h)

theorem mem_setUnion {α : Type} [DecidableEq α] (xs ys : List α) (z : α) :
    z ∈ setUnion xs ys ↔ z ∈ xs ∨ z ∈ ys := by
  induction ys generalizing xs with
  | nil => simp [setUnion]
  | cons y ys ih =>
      simp only [setUnion, List.foldl_cons] at *
      rw [ih (setAdd xs y)]
      rw [mem_setAdd]
      constructor
      · rintro ((hz | rfl) | hz)
        · exact Or.inl hz
        · exact Or.inr (List.mem_cons_self _ _)
        · exact Or.inr (List.mem_cons_of_mem _ hz)
      · rintro (hz | hz)
        · exact Or.inl (Or.inl hz)
        · rcases List.mem_cons.mp hz with rfl | hz
          · exact Or.inl (Or.inr rfl)
          · exact Or.inr hz

/-!
## Claims C1 and C2: transaction handling of the upload interface
-/

/-- C2, counterexample: the claim says the core never opens or commits a
transaction; on a concrete thread state, `findUploadableDatasets` itself
issues both `begin()` and `commit()` on the ambient thread transaction. -/
theorem findUploadableDatasets_opens_and_commits :
    TxEvent.beginE ∈ (UploadToDBS.findUploadableDatasets uploadTx0).2.2 ∧
    TxEvent.commitE ∈ (UploadToDBS.findUploadableDatasets uploadTx0).2.2 := by
  constructor <;> simp [UploadToDBS.findUploadableDatasets]

/-- C2 (amended): each of `findUploadableDatasets`, `findUploadableFiles`,
`findAlgos` and `updateFilesStatus` itself opens a transaction with
`begin()` on the thread-ambient transaction object
(`threading.currentThread().transaction`) and commits it on success; the
caller supplies no transaction argument, the scope is ambient per-thread
state, and no operation ever issues a `rollback()` — `updateFilesStatus`
leaves the transaction open when its query fails. -/
theorem UploadToDBS.opsOwnTransaction (t : Tx UploadStore) (dataset : String)
    (maxfiles : Nat) (files : List Nat) (ok : Bool) :
    (UploadToDBS.findUploadableDatasets t).2.2 =
      [TxEvent.beginE, TxEvent.execE ("FindUploadableDatasets"), TxEvent.commitE] ∧
    (UploadToDBS.findUploadableFiles dataset maxfiles t).2.2 =
      [TxEvent.beginE, TxEvent.execE ("FindUploadableFiles"), TxEvent.commitE] ∧
    (UploadToDBS.findAlgos dataset t).2.2 =
      [TxEvent.beginE, TxEvent.execE ("FindAlgos"), TxEvent.commitE] ∧
    (UploadToDBS.updateFilesStatus files ok t).2.2 =
      (if ok then
        [TxEvent.beginE, TxEvent.execE ("UpdateFilesStatus"), TxEvent.commitE]
       else [TxEvent.beginE, TxEvent.execE ("UpdateFilesStatus")]) ∧
    TxEvent.rollbackE ∉ (UploadToDBS.updateFilesStatus files ok t).2.2 := by
  cases ok <;>
    simp [UploadToDBS.findUploadableDatasets, UploadToDBS.findUploadableFiles,
      UploadToDBS.findAlgos, UploadToDBS.updateFilesStatus]

/-- C1, counterexample: the claim says a failed batch "is rolled back
within its transaction"; on a concrete failing input `updateFilesStatus`
issues no `rollback()` and leaves the thread transaction open
(`pending ≠ none`) while the error propagates. -/
theorem updateFilesStatus_no_rollback_on_failure :
    TxEvent.rollbackE ∉ (UploadToDBS.updateFilesStatus [1] false uploadTx0).2.2 ∧
    (UploadToDBS.updateFilesStatus [1] false uploadTx0).1.pending ≠ none := by
  constructor <;> simp [UploadToDBS.updateFilesStatus, uploadTx0, Tx.beginTx]

/-- C1 (amended): `updateFilesStatus` is all-or-nothing at the level of the
committed (visible) store.  When the underlying query execution fails the
error propagates without a `rollback()` or `commit()`: the transaction is
left open with an unchanged view, and the committed store equals the
pre-call store exactly — no file transitions.  When it succeeds the
transaction is committed and every listed file carries status `UPLOADED`
in the committed store, while unlisted rows are untouched. -/
theorem UploadToDBS.updateFilesStatus_allOrNothing (files : List Nat)
    (ok : Bool) (t : Tx UploadStore) (h : t.pending = none) :
    (ok = false →
      (UploadToDBS.updateFilesStatus files ok t).1.committed = t.committed ∧
      (UploadToDBS.updateFilesStatus files ok t).1.pending = some t.committed ∧
      (UploadToDBS.updateFilesStatus files ok t).2.1 = false) ∧
    (ok = true →
      (UploadToDBS.updateFilesStatus files ok t).1.pending = none ∧
      (UploadToDBS.updateFilesStatus files ok t).1.committed =
        updateFilesStatusQ files t.committed ∧
      (∀ r ∈ (UploadToDBS.updateFilesStatus files ok t).1.committed,
        (r.fileId ∈ files → r.status = "UPLOADED") ∧
        (r.fileId ∉ files → r ∈ t.committed))) := by
  cases ok with
  | false =>
      refine ⟨fun _ => ?_, fun hc => by cases hc⟩
      simp [UploadToDBS.updateFilesStatus, Tx.beginTx, Tx.view, h]
  | true =>
      refine ⟨fun hc => (by cases hc), fun _ => ?_⟩
      refine ⟨rfl, ?_, ?_⟩
      · simp [UploadToDBS.updateFilesStatus, Tx.beginTx, Tx.view, Tx.update,
          Tx.commitTx, h]
      · intro r hr
        have hcom : (UploadToDBS.updateFilesStatus files true t).1.committed =
            updateFilesStatusQ files t.committed := by
          simp [UploadToDBS.updateFilesStatus, Tx.beginTx, Tx.view, Tx.update,
            Tx.commitTx, h]
        rw [hcom] at hr
        rw [updateFilesStatusQ, List.mem_map] at hr
        obtain ⟨r0, hr0, hr0eq⟩ := hr
        constructor
        · intro hin
          by_cases hmem : r0.fileId ∈ files
          · rw [if_pos hmem] at hr0eq
            rw [← hr0eq]
          · rw [if_neg hmem] at hr0eq
            rw [← hr0eq] at hin
            exact absurd hin hmem
        · intro hnin
          by_cases hmem : r0.fileId ∈ files
          · rw [if_pos hmem] at hr0eq
            rw [← hr0eq] at hnin
            simp at hnin
            exact absurd hmem hnin
          · rw [if_neg hmem] at hr0eq
            rw [← hr0eq]
            exact hr0

/-- Witness for `UploadToDBS.updateFilesStatus_allOrNothing` at a concrete
thread state with no open transaction. -/
theorem updateFilesStatus_allOrNothing_witness :
    uploadTx0.pending = none ∧
    ((false = false →
      (UploadToDBS.updateFilesStatus [1] false uploadTx0).1.committed = uploadTx0.committed ∧
      (UploadToDBS.updateFilesStatus [1] false uploadTx0).1.pending = some uploadTx0.committed ∧
      (UploadToDBS.updateFilesStatus [1] false uploadTx0).2.1 = false) ∧
    (false = true →
      (UploadToDBS.updateFilesStatus [1] false uploadTx0).1.pending = none ∧
      (UploadToDBS.updateFilesStatus [1] false uploadTx0).1.committed =
        updateFilesStatusQ [1] uploadTx0.committed ∧
      (∀ r ∈ (UploadToDBS.updateFilesStatus [1] false uploadTx0).1.committed,
        (r.fileId ∈ [1] → r.status = "UPLOADED") ∧
        (r.fileId ∉ [1] → r ∈ uploadTx0.committed)))) :=
  ⟨rfl, UploadToDBS.updateFilesStatus_allOrNothing [1] false uploadTx0 rfl⟩

theorem PNNstoPSNsGo_skip (mapping : List CricMapItem) (pnn : String)
    (h : pnnSkip pnn = true) (pre post : List String)
    (acc : List String × List String) :
    CRIC.PNNstoPSNsGo mapping (pre ++ pnn :: post) acc =
      CRIC.PNNstoPSNsGo mapping (pre ++ post) acc := by
  induction pre generalizing acc with
  | nil => simp [CRIC.PNNstoPSNsGo, h]
  | cons p pre ih =>
      simp only [List.cons_append, CRIC.PNNstoPSNsGo]
      by_cases hp : pnnSkip p
      · simp only [if_pos hp]
        exact ih _
      · simp only [if_neg hp]
        split <;> exact ih _

theorem PNNstoPSNsGo_nodup (mapping : List CricMapItem) (l : List String)
    (acc : List String × List String) (h : acc.1.Nodup) :
    (CRIC.PNNstoPSNsGo mapping l acc).1.Nodup := by
  induction l generalizing acc with
  | nil => simpa [CRIC.PNNstoPSNsGo]
  | cons pnn rest ih =>
      simp only [CRIC.PNNstoPSNsGo]
      by_cases hp : pnnSkip pnn
      · simp only [if_pos hp]
        exact ih acc h
      · simp only [if_neg hp]
        split
        · exact ih _ h
        · exact ih _ (nodup_setUnion _ _ h)

/-- C9: `CRIC.PNNstoPSNs` silently skips a PNN equal to
`"T0_CH_CERN_Export"` or ending in `"_MSS"` or `"_Buffer"` — deleting such
a PNN from the input changes neither the resulting PSNs nor the emitted
warnings — and its resulting PSN list never contains a duplicate, however
many input PNNs map to the same PSN. -/
theorem CRIC.PNNstoPSNs_skip_and_nodup (mapping : List CricMapItem)
    (pre post : List String) (pnn : String) (input : Sum String (List String))
    (h : pnnSkip pnn = true) :
    CRIC.PNNstoPSNs mapping (Sum.inr (pre ++ pnn :: post)) =
      CRIC.PNNstoPSNs mapping (Sum.inr (pre ++ post)) ∧
    (CRIC.PNNstoPSNs mapping input).1.Nodup := by
  constructor
  · unfold CRIC.PNNstoPSNs
    exact PNNstoPSNsGo_skip mapping pnn h pre post ([], [])
  · unfold CRIC.PNNstoPSNs
    exact PNNstoPSNsGo_nodup mapping _ ([], []) List.nodup_nil

/-- Witness for `CRIC.PNNstoPSNs_skip_and_nodup`: the MSS endpoint is
skipped on a concrete input and the output list is duplicate-free. -/
theorem CRIC.PNNstoPSNs_skip_and_nodup_witness :
    pnnSkip ("T1_US_FNAL_MSS") = true ∧
    (CRIC.PNNstoPSNs cricMap0 (Sum.inr (["T1_US_FNAL_Disk"] ++ "T1_US_FNAL_MSS" :: ["T2_CH_CERN"])) =
      CRIC.PNNstoPSNs cricMap0 (Sum.inr (["T1_US_FNAL_Disk"] ++ ["T2_CH_CERN"])) ∧
    (CRIC.PNNstoPSNs cricMap0 (Sum.inr ["T1_US_FNAL_Disk", "T1_US_FNAL_MSS", "T2_CH_CERN"])).1.Nodup) :=
  ⟨by decide,
   CRIC.PNNstoPSNs_skip_and_nodup cricMap0 ["T1_US_FNAL_Disk"] ["T2_CH_CERN"]
     "T1_US_FNAL_MSS"
     (Sum.inr ["T1_US_FNAL_Disk", "T1_US_FNAL_MSS", "T2_CH_CERN"]) (by decide)⟩

/-- C10: `setEmulators` raises `NotImplementedError` whenever `dbs` or
`siteDB` is truthy, leaving both emulator flags unchanged; when both are
falsy it raises nothing and sets `PhEDEx` to the `phedex` argument and
`ReqMgr` to the `requestMgr` argument. -/
theorem EmulatorHelper.setEmulators_spec (st : EmulatorHelperState)
    (phedex dbs siteDB requestMgr : Bool) :
    EmulatorHelper.setEmulators st phedex dbs siteDB requestMgr =
      (if dbs || siteDB then
        (st, some ("There are no DBS or SiteDB emulators anymore. Use the mock-based emulators."))
       else ({ PhEDEx := some phedex, ReqMgr := some requestMgr }, none)) ∧
    (EmulatorHelper.setEmulators st phedex true siteDB requestMgr).1 = st ∧
    (EmulatorHelper.setEmulators st phedex true siteDB requestMgr).2.isSome = true ∧
    (EmulatorHelper.setEmulators st phedex dbs true requestMgr).1 = st ∧
    (EmulatorHelper.setEmulators st phedex dbs true requestMgr).2.isSome = true ∧
    EmulatorHelper.setEmulators st phedex false false requestMgr =
      ({ PhEDEx := some phedex, ReqMgr := some requestMgr }, none) := by
  refine ⟨rfl, rfl, rfl, ?_, ?_, rfl⟩ <;>
    cases dbs <;> simp [EmulatorHelper.setEmulators]

theorem Tx.view_update {σ : Type} (t : Tx σ) (s : σ) : (t.update s).view = s := by
  cases hp : t.pending <;> simp [Tx.update, Tx.view, hp]

/-!
## Claim C7: run provenance merge
-/

/-- C7: run provenance addition is merge-only.  Adding a run number that is
not yet present appends one entry; adding it again unions the sub-run
sets into that single entry instead of creating a second one, so two
additions of the same run yield `runs ++ [(n, union of both sub-run
sets)]`.  Moreover adding an already-present run never changes the number
of entries, and `addRunSet` is the fold of `addRun`. -/
theorem DBSBufferFile.addRun_merge (f g : DBSBufferFile) (n : Nat)
    (ls1 ls2 : List Nat) (r r1 r2 : Nat × List Nat)
    (h : ∀ e ∈ f.data.runs, e.1 ≠ n) :
    ((f.addRun (n, ls1)).addRun (n, ls2)).data.runs
      = f.data.runs ++ [(n, setUnion ls1 ls2)] ∧
    (g.data.runs.any (fun e => e.1 == r.1) = true →
      (g.addRun r).data.runs.length = g.data.runs.length) ∧
    g.addRunSet [r1, r2] = (g.addRun r1).addRun r2 := by
  refine ⟨?_, ?_, rfl⟩
  · have h1 : (f.data.runs.any fun e => e.1 == n) = false := by
      rw [List.any_eq_false]
      intro e he
      simpa using h e he
    have e1 : addRunToList f.data.runs (n, ls1) = f.data.runs ++ [(n, ls1)] := by
      unfold addRunToList
      rw [if_neg]
      simp [h1]
    have e2 : addRunToList (f.data.runs ++ [(n, ls1)]) (n, ls2)
        = (f.data.runs ++ [(n, ls1)]).map
            (fun e => if e.1 == n then (e.1, setUnion e.2 ls2) else e) := by
      unfold addRunToList
      rw [if_pos]
      simp
    have e3 : ∀ (l : List (Nat × List Nat)), (∀ e ∈ l, e.1 ≠ n) →
        l.map (fun e => if e.1 == n then (e.1, setUnion e.2 ls2) else e) = l := by
      intro l
      induction l with
      | nil => intro _; rfl
      | cons x xs ih =>
          intro hl
          have hx : (x.1 == n) = false := by
            simpa using hl x (List.mem_cons_self x xs)
          simp only [List.map_cons, hx, Bool.false_eq_true, if_false]
          rw [ih (fun e he => hl e (List.mem_cons_of_mem x he))]
    show addRunToList (addRunToList f.data.runs (n, ls1)) (n, ls2) = _
    rw [e1, e2, List.map_append, e3 f.data.runs h]
    simp
  · intro hr
    simp [DBSBufferFile.addRun, addRunToList, hr]

/-- Witness for `DBSBufferFile.addRun_merge`: adding run 1 with sub-runs
{45} and then run 1 with sub-runs {46} to a fresh record yields the single
entry `(1, [45, 46])`. -/
theorem DBSBufferFile.addRun_merge_witness :
    (((blankByLfn ("x")).addRun (1, [45])).addRun (1, [46])).data.runs
      = [(1, [45, 46])] := by
  have hm := DBSBufferFile.addRun_merge (blankByLfn ("x")) (blankByLfn ("x")) 1 [45] [46]
    (1, [46]) (1, [45]) (1, [46]) (by decide)
  rw [hm.1]
  decide

/-!
## Claim C8: a single string as shorthand for a one-element set
-/

/-- C8: for every multi-valued string parameter — the locations of the
FileRecord constructor, the sites of `setLocation` (and the LFNs of
`addChildren`), and the PNN/PSN arguments of the CRIC site-topology
client — passing a single string behaves identically to passing the
one-element collection containing that string. -/
theorem singleString_matches_singletonSet (mapping : List CricMapItem) (s : String)
    (lfn : Option String) (fid : Option Nat) (size events : Nat)
    (cks : List (String × String)) (f : DBSBufferFile) (imm : Bool)
    (t : Tx BufStore) :
    CRIC.PNNstoPSNs mapping (Sum.inl s) = CRIC.PNNstoPSNs mapping (Sum.inr [s]) ∧
    CRIC.PSNstoPNNs mapping (Sum.inl s) = CRIC.PSNstoPNNs mapping (Sum.inr [s]) ∧
    DBSBufferFile.mkFile lfn fid size events cks (Sum.inl s)
      = DBSBufferFile.mkFile lfn fid size events cks (Sum.inr [s]) ∧
    f.setLocation (Sum.inl s) imm t = f.setLocation (Sum.inr [s]) imm t ∧
    f.addChildren (Sum.inl s) t = f.addChildren (Sum.inr [s]) t := by
  refine ⟨rfl, rfl, ?_, ?_, ?_⟩
  · simp [DBSBufferFile.mkFile, locParam, setUnion, setAdd]
  · simp [DBSBufferFile.setLocation, setUnion, locParam, setAdd]
  · simp [DBSBufferFile.addChildren, locParam, setUnion, setAdd]

/-!
## Claim C5: deferred-mode setLocation
-/

/-- C5: `setLocation(..., immediateSave=False)` buffers the sites only in
this instance's memory — the transaction state is untouched, the scalar
data unchanged, and a `load` of any record through any other instance is
unaffected — and a subsequent immediate-mode call persists the union of
all pending sites with the flushed ones. -/
theorem DBSBufferFile.setLocation_deferred (f g : DBSBufferFile)
    (sites sites2 : List String) (t : Tx BufStore) (i : Nat) (par : Bool)
    (x : String) (hid : f.data.id = some i) :
    (f.setLocation (Sum.inr sites) false t).2 = t ∧
    (f.setLocation (Sum.inr sites) false t).1.newlocations
      = setUnion f.newlocations sites ∧
    (f.setLocation (Sum.inr sites) false t).1.data = f.data ∧
    g.load par (f.setLocation (Sum.inr sites) false t).2 = g.load par t ∧
    ((i, x) ∈ (((f.setLocation (Sum.inr sites) false t).1.setLocation
        (Sum.inr sites2) true t).2.view.locations) ↔
      ((i, x) ∈ t.view.locations ∨ x ∈ f.newlocations ∨ x ∈ sites ∨ x ∈ sites2)) := by
  refine ⟨rfl, rfl, rfl, rfl, ?_⟩
  have e : ((f.setLocation (Sum.inr sites) false t).1.setLocation
        (Sum.inr sites2) true t).2
      = t.update
          { t.view with
            locations :=
              setUnion t.view.locations
                ((setUnion (setUnion f.newlocations sites) sites2).map
                  (fun site => (i, site))) } := by
    simp [DBSBufferFile.setLocation, DBSBufferFile.updateLocations, hid]
  rw [e, Tx.view_update]
  show (i, x) ∈ setUnion t.view.locations _ ↔ _
  rw [mem_setUnion]
  simp only [List.mem_map, Prod.mk.injEq]
  constructor
  · rintro (hmem | ⟨site, hsite, -, rfl⟩)
    · exact Or.inl hmem
    · rw [mem_setUnion, mem_setUnion] at hsite
      rcases hsite with (hs | hs) | hs
      · exact Or.inr (Or.inl hs)
      · exact Or.inr (Or.inr (Or.inl hs))
      · exact Or.inr (Or.inr (Or.inr hs))
  · rintro (hmem | hs | hs | hs)
    · exact Or.inl hmem
    · refine Or.inr ⟨x, ?_, trivial, rfl⟩
      rw [mem_setUnion, mem_setUnion]
      exact Or.inl (Or.inl hs)
    · refine Or.inr ⟨x, ?_, trivial, rfl⟩
      rw [mem_setUnion, mem_setUnion]
      exact Or.inl (Or.inr hs)
    · refine Or.inr ⟨x, ?_, trivial, rfl⟩
      rw [mem_setUnion, mem_setUnion]
      exact Or.inr hs

/-- Witness for `DBSBufferFile.setLocation_deferred`: on a concrete record
with id 1 over the empty store, a deferred call leaves the transaction
state untouched, and the following immediate-mode flush persists a
deferred site. -/
theorem DBSBufferFile.setLocation_deferred_witness :
    ((blankById 1).setLocation (Sum.inr ["b1", "b2"]) false bufTx0).2 = bufTx0 ∧
    (1, "b1") ∈ ((((blankById 1).setLocation (Sum.inr ["b1", "b2"]) false
      bufTx0).1.setLocation (Sum.inr ["c1"]) true bufTx0).2.view.locations) := by
  have hm := DBSBufferFile.setLocation_deferred (blankById 1) (blankByLfn ("g"))
    ["b1", "b2"] ["c1"] bufTx0 1 true ("b1") rfl
  exact ⟨hm.1, hm.2.2.2.2.mpr (Or.inr (Or.inr (Or.inl (by decide))))⟩

theorem create_shape (f : DBSBufferFile) (t : Tx BufStore)
    (res : DBSBufferFile × Tx BufStore) (h : f.create t = Except.ok res) :
    ∃ s, res.2 = t.update s := by
  unfold DBSBufferFile.create at h
  split at h
  · split at h
    · exact absurd h (by simp)
    · exact ⟨_, (congrArg Prod.snd (Except.ok.inj h)).symm⟩
  · exact absurd h (by simp)

theorem delete_shape (f : DBSBufferFile) (t : Tx BufStore)
    (t2 : Tx BufStore) (h : f.delete t = Except.ok t2) :
    ∃ s, t2 = t.update s := by
  unfold DBSBufferFile.delete at h
  split at h
  · exact absurd h (by simp)
  · exact ⟨_, (Except.ok.inj h).symm⟩

theorem Tx.update_committed {σ : Type} (t : Tx σ) (s : σ)
    (h : t.pending.isSome = true) :
    (t.update s).committed = t.committed ∧ (t.update s).pending.isSome = true := by
  cases hp : t.pending with
  | none => rw [hp] at h; cases h
  | some v => simp [Tx.update, hp]

theorem stepOp_preserves (op : BufOp) (t : Tx BufStore)
    (h : t.pending.isSome = true) :
    (stepOp op t).committed = t.committed ∧
    (stepOp op t).pending.isSome = true := by
  cases op with
  | createOp f =>
      simp only [stepOp]
      cases hc : f.create t with
      | error e => exact ⟨rfl, h⟩
      | ok res =>
          obtain ⟨s, hs⟩ := create_shape f t res hc
          show res.2.committed = t.committed ∧ res.2.pending.isSome = true
          rw [hs]
          exact Tx.update_committed t s h
  | deleteOp f =>
      simp only [stepOp]
      cases hc : f.delete t with
      | error e => exact ⟨rfl, h⟩
      | ok t2 =>
          obtain ⟨s, hs⟩ := delete_shape f t t2 hc
          show t2.committed = t.committed ∧ t2.pending.isSome = true
          rw [hs]
          exact Tx.update_committed t s h
  | addChildrenOp f ls =>
      simp only [stepOp]
      unfold DBSBufferFile.addChildren
      cases hl : f.data.lfn with
      | none => exact ⟨rfl, h⟩
      | some l => exact Tx.update_committed t _ h
  | setLocationOp f ss =>
      simp only [stepOp]
      unfold DBSBufferFile.setLocation DBSBufferFile.updateLocations
      simp only [if_pos]
      cases hi : (({ f with newlocations :=
          match ss with
          | Sum.inl s => setAdd f.newlocations s
          | Sum.inr l => setUnion f.newlocations l } : DBSBufferFile)).data.id with
      | none => exact ⟨rfl, h⟩
      | some i => exact Tx.update_committed t _ h

theorem foldl_stepOp_preserves (ops : List BufOp) (t : Tx BufStore)
    (h : t.pending.isSome = true) :
    (ops.foldl (fun acc op => stepOp op acc) t).committed = t.committed ∧
    (ops.foldl (fun acc op => stepOp op acc) t).pending.isSome = true := by
  induction ops generalizing t with
  | nil => exact ⟨rfl, h⟩
  | cons op ops ih =>
      simp only [List.foldl_cons]
      obtain ⟨h1, h2⟩ := stepOp_preserves op t h
      obtain ⟨h3, h4⟩ := ih (stepOp op t) h2
      exact ⟨h3.trans h1, h4⟩

/-- C3: rolling back the enclosing transaction exactly reverses any
sequence of `create`, `delete`, `addChildren` and immediate-mode
`setLocation` operations: for every scope with no transaction open, a
`begin`, then the operations, then a `rollback` give back exactly the
pre-transaction scope — and in particular any record's parents view
obtained through `load(parentage=True)` after the rollback equals the
pre-transaction one, so rolled-back lineage edges disappear from it. -/
theorem rollback_reverses (t : Tx BufStore) (ops : List BufOp)
    (g : DBSBufferFile) (h : t.pending = none) :
    Tx.rollbackTx (ops.foldl (fun acc op => stepOp op acc) t.beginTx) = t ∧
    g.load true (Tx.rollbackTx (ops.foldl (fun acc op => stepOp op acc) t.beginTx))
      = g.load true t := by
  have hb : (t.beginTx).pending.isSome = true := rfl
  obtain ⟨h1, _⟩ := foldl_stepOp_preserves ops t.beginTx hb
  have heq : Tx.rollbackTx (ops.foldl (fun acc op => stepOp op acc) t.beginTx) = t := by
    unfold Tx.rollbackTx
    rw [h1]
    show ({ committed := t.committed, pending := none } : Tx BufStore) = t
    cases t with
    | mk c p =>
        simp only at h
        rw [h]
  exact ⟨heq, by rw [heq]⟩

/-- Witness for `rollback_reverses`: on the empty scope, creating two
files, adding a child edge, setting a location immediately and deleting a
file inside one transaction, then rolling back, restores the scope
exactly, and the parents view of a record loaded afterwards matches the
pre-transaction one. -/
theorem rollback_reverses_witness :
    Tx.rollbackTx (opsW.foldl (fun acc op => stepOp op acc) bufTx0.beginTx) = bufTx0 ∧
    (blankByLfn ("a")).load true
        (Tx.rollbackTx (opsW.foldl (fun acc op => stepOp op acc) bufTx0.beginTx))
      = (blankByLfn ("a")).load true bufTx0 :=
  rollback_reverses bufTx0 opsW (blankByLfn ("a")) rfl

/-!
## Helper lemmas for the create/load/lineage claims
-/

theorem setUnion_eq_append {α : Type} [DecidableEq α] (xs ys : List α)
    (hnd : ys.Nodup) (hdisj : ∀ y ∈ ys, y ∉ xs) :
    setUnion xs ys = xs ++ ys := by
  induction ys generalizing xs with
  | nil => simp [setUnion]
  | cons y ys ih =>
      simp only [setUnion, List.foldl_cons] at *
      have hy : y ∉ xs := hdisj y (List.mem_cons_self y ys)
      have hadd : setAdd xs y = xs ++ [y] := by simp [setAdd, hy]
      rw [hadd]
      have hnd2 := (List.nodup_cons.mp hnd).2
      have hdisj2 : ∀ z ∈ ys, z ∉ xs ++ [y] := by
        intro z hz
        rw [List.mem_append]
        rintro (hzx | hzy)
        · exact hdisj z (List.mem_cons_of_mem y hz) hzx
        · rcases List.mem_singleton.mp hzy with rfl
          exact (List.nodup_cons.mp hnd).1 hz
      rw [ih (xs ++ [y]) hnd2 hdisj2]
      simp

theorem setUnion_pairs_filter {α β : Type} [DecidableEq α] [DecidableEq β]
    (old : List (α × β)) (a : α) (xs : List β)
    (hnotin : ∀ x ∈ xs, (a, x) ∉ old) (hnd : xs.Nodup) :
    ((setUnion old (xs.map (fun x => (a, x)))).filter
        (fun p => p.1 == a)).map (fun p => p.2)
      = ((old.filter (fun p => p.1 == a)).map (fun p => p.2)) ++ xs := by
  induction xs generalizing old with
  | nil => simp [setUnion]
  | cons x xs ih =>
      simp only [List.map_cons, setUnion, List.foldl_cons] at *
      have hx : (a, x) ∉ old := hnotin x (List.mem_cons_self x xs)
      have hadd : setAdd old (a, x) = old ++ [(a, x)] := by simp [setAdd, hx]
      rw [hadd]
      have hnd2 := (List.nodup_cons.mp hnd).2
      have hnotin2 : ∀ z ∈ xs, (a, z) ∉ old ++ [(a, x)] := by
        intro z hz
        rw [List.mem_append]
        rintro (hzo | hzx)
        · exact hnotin z (List.mem_cons_of_mem x hz) hzo
        · have := List.mem_singleton.mp hzx
          have hzx2 : z = x := by
            have := congrArg Prod.snd this
            simpa using this
          exact (List.nodup_cons.mp hnd).1 (hzx2 ▸ hz)
      rw [ih (old ++ [(a, x)]) hnotin2 hnd2]
      rw [List.filter_append, List.map_append]
      simp

theorem find?_append_none {α : Type} (p : α → Bool) (l1 l2 : List α)
    (h : l1.find? p = none) : (l1 ++ l2).find? p = l2.find? p := by
  induction l1 with
  | nil => rfl
  | cons x xs ih =>
      cases hx : p x with
      | true => rw [List.find?_cons_of_pos _ hx] at h; cases h
      | false =>
          have hx2 : ¬ p x = true := by simp [hx]
          rw [List.find?_cons_of_neg _ hx2] at h
          rw [List.cons_append, List.find?_cons_of_neg _ hx2]
          exact ih h

theorem find?_append_some {α : Type} (p : α → Bool) (l1 l2 : List α) (x : α)
    (h : l1.find? p = some x) : (l1 ++ l2).find? p = some x := by
  induction l1 with
  | nil => cases h
  | cons y ys ih =>
      cases hy : p y with
      | true =>
          rw [List.find?_cons_of_pos _ hy] at h
          rw [List.cons_append, List.find?_cons_of_pos _ hy]
          exact h
      | false =>
          have hy2 : ¬ p y = true := by simp [hy]
          rw [List.find?_cons_of_neg _ hy2] at h
          rw [List.cons_append, List.find?_cons_of_neg _ hy2]
          exact ih h

theorem any_lfn_false (rows : List FileRow) (l : String)
    (h : ∀ r ∈ rows, r.lfn ≠ l) : (rows.any fun r => r.lfn == l) = false := by
  rw [List.any_eq_false]
  intro r hr
  simpa using h r hr

theorem addRunSet_eq (g : DBSBufferFile) (rs : List (Nat × List Nat)) :
    g.addRunSet rs
      = { g with data := { g.data with runs := rs.foldl addRunToList g.data.runs } } := by
  induction rs generalizing g with
  | nil => rfl
  | cons r rs ih =>
      simp only [DBSBufferFile.addRunSet, List.foldl_cons] at *
      rw [ih (g.addRun r)]
      rfl

theorem builtRecord_eq (l : String) (size events : Nat)
    (cks : List (String × String)) (locs : List String)
    (rs : List (Nat × List Nat)) (a : AlgoInfo) (d : String) :
    builtRecord l size events cks locs rs a d
      = { data := { id := none, lfn := some l, size := size, events := events,
                    checksums := cks, algo := some a, datasetPath := some d,
                    runs := rs.foldl addRunToList [], locations := [],
                    status := "NOTUPLOADED" },
          newlocations := setUnion [] locs, parents := [] } := by
  unfold builtRecord
  rw [addRunSet_eq]
  rfl

theorem create_ok_eq (f : DBSBufferFile) (t : Tx BufStore) (a : AlgoInfo)
    (d l : String)
    (ha : f.data.algo = some a) (hd : f.data.datasetPath = some d)
    (hl : f.data.lfn = some l)
    (hany : (t.view.files.any fun r => r.lfn == l) = false) :
    f.create t = Except.ok (createdFile f t, t.update (createdStore f t a d l)) := by
  unfold DBSBufferFile.create
  rw [ha, hd, hl]
  simp only [hany, Bool.false_eq_true, if_false, BufStore.createFile,
    createdFile, createdStore, createdRow]

/-!
## Claim C4: exists/create/delete/load round trip
-/

/-- C4: for every FileRecord whose algorithm, dataset path and LFN are set
(with a duplicate-free location set, as every Python `set` is) against any
well-formed store where the LFN is fresh: `exists()` returns the falsy
`none` before `create()` (absence is data — the operation is total and
never raises), `create()` succeeds, afterwards `exists()` returns the
truthy (positive) assigned id, after `delete()` it returns `none` again,
and a fresh record built from only the LFN — or only the id — and then
`load()`-ed equals the created record on all scalar/descriptor fields. -/
theorem DBSBufferFile.create_exists_load_spec (f : DBSBufferFile)
    (t : Tx BufStore) (a : AlgoInfo) (d l : String)
    (ha : f.data.algo = some a) (hd : f.data.datasetPath = some d)
    (hl : f.data.lfn = some l)
    (hnd : (setUnion f.data.locations f.newlocations).Nodup)
    (hfresh : ∀ r ∈ t.view.files, r.lfn ≠ l) (hwf : t.view.WF) :
    f.existsId t = none ∧
    (∃ p, f.create t = Except.ok p) ∧
    (∀ f2 t2, f.create t = Except.ok (f2, t2) →
      (f2.existsId t2 = some t.view.nextId ∧ 0 < t.view.nextId) ∧
      (∃ t3, f2.delete t2 = Except.ok t3) ∧
      (∀ t3, f2.delete t2 = Except.ok t3 → f2.existsId t3 = none) ∧
      ((blankByLfn l).load true t2).data = f2.data ∧
      (∀ i, f2.data.id = some i → ((blankById i).load true t2).data = f2.data)) := by
  obtain ⟨hpos, hfids, hlocids⟩ := hwf
  have hany : (t.view.files.any fun r => r.lfn == l) = false := any_lfn_false _ _ hfresh
  have hfind0 : t.view.files.find? (fun r => r.lfn == l) = none := by
    rw [List.find?_eq_none]
    intro r hr
    simpa using hfresh r hr
  have hcreate := create_ok_eq f t a d l ha hd hl hany
  refine ⟨?_, ⟨_, hcreate⟩, ?_⟩
  · simp [DBSBufferFile.existsId, BufStore.rowFor, hl, hfind0]
  intro f2 t2 hok
  rw [hcreate] at hok
  have hpair := Except.ok.inj hok
  rw [Prod.mk.injEq] at hpair
  obtain ⟨hf2, ht2⟩ := hpair
  subst hf2
  subst ht2
  have hfindS : (createdStore f t a d l).files.find? (fun r => r.lfn == l)
      = some (createdRow f t a d l) := by
    show (t.view.files ++ [createdRow f t a d l]).find? (fun r => r.lfn == l) = _
    rw [find?_append_none _ _ _ hfind0]
    rw [List.find?_cons_of_pos _ (by simp [createdRow])]
  have hrowFor2 : (t.update (createdStore f t a d l)).view.rowFor (createdFile f t)
      = some (createdRow f t a d l) := by
    rw [Tx.view_update]
    simp [BufStore.rowFor, createdFile, hl, hfindS]
  have hdel : (createdFile f t).delete (t.update (createdStore f t a d l))
      = Except.ok ((t.update (createdStore f t a d l)).update
          { files := ((t.update (createdStore f t a d l)).view.files.filter
              (fun r => !(r.fid == (createdRow f t a d l).fid))),
            locations := ((t.update (createdStore f t a d l)).view.locations.filter
              (fun p => !(p.1 == (createdRow f t a d l).fid))),
            parentage := ((t.update (createdStore f t a d l)).view.parentage.filter
              (fun e => !(e.1 == (createdRow f t a d l).lfn) &&
                !(e.2 == (createdRow f t a d l).lfn))),
            nextId := (t.update (createdStore f t a d l)).view.nextId }) := by
    unfold DBSBufferFile.delete
    rw [hrowFor2]
  refine ⟨⟨?_, hpos⟩, ?_, ?_, ?_, ?_⟩
  · simp [DBSBufferFile.existsId, hrowFor2, createdRow]
  · exact ⟨_, hdel⟩
  · intro t3 hdel3
    rw [hdel] at hdel3
    have ht3 := Except.ok.inj hdel3
    subst ht3
    have hnone : ((t.update (createdStore f t a d l)).view.files.filter
        (fun r => !(r.fid == (createdRow f t a d l).fid))).find?
          (fun r => r.lfn == l) = none := by
      rw [List.find?_eq_none]
      intro r hr
      rw [List.mem_filter] at hr
      obtain ⟨hrmem, hrpred⟩ := hr
      rw [Tx.view_update] at hrmem
      have hrmem2 : r ∈ t.view.files ++ [createdRow f t a d l] := hrmem
      rw [List.mem_append] at hrmem2
      rcases hrmem2 with hrold | hrnew
      · simpa using hfresh r hrold
      · rcases List.mem_singleton.mp hrnew with rfl
        simp [createdRow] at hrpred
    simp only [DBSBufferFile.existsId, BufStore.rowFor, createdFile]
    simp [hl, Tx.view_update, hnone]
    intro x hx hfid
    have hx2 : x ∈ t.view.files ++ [createdRow f t a d l] := hx
    rw [List.mem_append] at hx2
    rcases hx2 with hold | hnew
    · exact hfresh x hold
    · rcases List.mem_singleton.mp hnew with rfl
      exact absurd rfl hfid
  · have hrowB : (t.update (createdStore f t a d l)).view.rowFor (blankByLfn l)
        = some (createdRow f t a d l) := by
      rw [Tx.view_update]
      simp [BufStore.rowFor, blankByLfn, DBSBufferFile.mkFile, hfindS]
    unfold DBSBufferFile.load
    rw [hrowB]
    have hni : ∀ x ∈ setUnion f.data.locations f.newlocations,
        (t.view.nextId, x) ∉ t.view.locations := by
      intro x hx hmem
      exact Nat.lt_irrefl _ (hlocids _ hmem)
    have hfe : t.view.locations.filter (fun p => p.1 == t.view.nextId) = [] := by
      rw [List.filter_eq_nil_iff]
      intro p hp
      simp only [beq_iff_eq]
      exact Nat.ne_of_lt (hlocids p hp)
    have hlocs := setUnion_pairs_filter t.view.locations t.view.nextId
      (setUnion f.data.locations f.newlocations) hni hnd
    rw [hfe] at hlocs
    simp only [List.map_nil, List.nil_append] at hlocs
    simp [BufStore.loadData, Tx.view_update, createdStore, createdRow,
      createdFile, hlocs, hl, ha, hd]
  · intro i hi
    have hi2 : t.view.nextId = i := by
      simpa [createdFile] using hi
    subst hi2
    have hfind0f : t.view.files.find? (fun r => r.fid == t.view.nextId) = none := by
      rw [List.find?_eq_none]
      intro r hr
      simp only [beq_iff_eq]
      exact Nat.ne_of_lt (hfids r hr)
    have hfindSf : (createdStore f t a d l).files.find?
        (fun r => r.fid == t.view.nextId) = some (createdRow f t a d l) := by
      show (t.view.files ++ [createdRow f t a d l]).find? _ = _
      rw [find?_append_none _ _ _ hfind0f]
      rw [List.find?_cons_of_pos _ (by simp [createdRow])]
    have hrowI : (t.update (createdStore f t a d l)).view.rowFor
        (blankById t.view.nextId) = some (createdRow f t a d l) := by
      rw [Tx.view_update]
      simp [BufStore.rowFor, blankById, DBSBufferFile.mkFile, hfindSf]
    unfold DBSBufferFile.load
    rw [hrowI]
    have hni : ∀ x ∈ setUnion f.data.locations f.newlocations,
        (t.view.nextId, x) ∉ t.view.locations := by
      intro x hx hmem
      exact Nat.lt_irrefl _ (hlocids _ hmem)
    have hfe : t.view.locations.filter (fun p => p.1 == t.view.nextId) = [] := by
      rw [List.filter_eq_nil_iff]
      intro p hp
      simp only [beq_iff_eq]
      exact Nat.ne_of_lt (hlocids p hp)
    have hlocs := setUnion_pairs_filter t.view.locations t.view.nextId
      (setUnion f.data.locations f.newlocations) hni hnd
    rw [hfe] at hlocs
    simp only [List.map_nil, List.nil_append] at hlocs
    simp [BufStore.loadData, Tx.view_update, createdStore, createdRow,
      createdFile, hlocs, hl, ha, hd]

/-- Witness for `DBSBufferFile.create_exists_load_spec`: a concrete record
over the empty store — `exists()` is `none` before creation, and mapping
the successful `create()` result shows `exists()` returning the id 1 and
both reloads (by LFN and by id) equal to the created record on all
scalar/descriptor fields. -/
theorem DBSBufferFile.create_exists_load_spec_witness :
    (builtRecord ("a") 1024 10 [] ["se1"] [(1, [45])] algo0 ("/ds")).existsId bufTx0
      = none ∧
    ((builtRecord ("a") 1024 10 [] ["se1"] [(1, [45])] algo0 ("/ds")).create bufTx0).map
        (fun p => (p.1.existsId p.2,
          decide (((blankByLfn ("a")).load true p.2).data = p.1.data),
          decide (((blankById 1).load true p.2).data = p.1.data)))
      = Except.ok (some 1, true, true) := by
  have h := DBSBufferFile.create_exists_load_spec
    (builtRecord ("a") 1024 10 [] ["se1"] [(1, [45])] algo0 ("/ds")) bufTx0 algo0
    "/ds" ("a") (by rw [builtRecord_eq]) (by rw [builtRecord_eq])
    (by rw [builtRecord_eq]) (by decide) (by decide) (by decide)
  exact ⟨h.1, by rfl⟩

theorem create_effect (f : DBSBufferFile) (t : Tx BufStore)
    (res : DBSBufferFile × Tx BufStore) (h : f.create t = Except.ok res) :
    res.2.view.parentage = t.view.parentage ∧
    ∃ row : FileRow, res.2.view.files = t.view.files ++ [row] ∧
      f.data.lfn = some row.lfn := by
  unfold DBSBufferFile.create at h
  split at h
  · rename_i a d l ha hd hl
    by_cases hany : (t.view.files.any fun r => r.lfn == l) = true
    · rw [if_pos hany] at h
      cases h
    · rw [if_neg hany] at h
      have h2 := Except.ok.inj h
      have hsnd : res.2 = t.update (createdStore f t a d l) :=
        (congrArg Prod.snd h2).symm
      refine ⟨?_, createdRow f t a d l, ?_, ?_⟩
      · rw [hsnd, Tx.view_update]
        rfl
      · rw [hsnd, Tx.view_update]
        rfl
      · exact hl
  · exact absurd h (by simp)

theorem parentRecord_create_error (p : String) (t : Tx BufStore) (e : DBSError)
    (h : (parentRecord p).create t = Except.error e) :
    (t.view.files.any fun r => r.lfn == p) = true := by
  cases hb : (t.view.files.any fun r => r.lfn == p) with
  | true => rfl
  | false =>
      have hc := create_ok_eq (parentRecord p) t algo0 ("/ds/RAW") p rfl rfl rfl hb
      rw [hc] at h
      cases h

theorem createStep_parentage (p : String) (t : Tx BufStore) :
    (createStep p t).view.parentage = t.view.parentage := by
  unfold createStep
  cases hc : (parentRecord p).create t with
  | ok res => exact (create_effect (parentRecord p) t res hc).1
  | error e => rfl

theorem createStep_files (p : String) (t : Tx BufStore) :
    ∃ rest, (createStep p t).view.files = t.view.files ++ rest := by
  unfold createStep
  cases hc : (parentRecord p).create t with
  | ok res =>
      obtain ⟨_, row, hfiles, _⟩ := create_effect (parentRecord p) t res hc
      exact ⟨[row], hfiles⟩
  | error e => exact ⟨[], by simp⟩

theorem createStep_hasRow (p : String) (t : Tx BufStore) :
    ∃ r ∈ (createStep p t).view.files, r.lfn = p := by
  unfold createStep
  cases hc : (parentRecord p).create t with
  | ok res =>
      obtain ⟨_, row, hfiles, hlfn⟩ := create_effect (parentRecord p) t res hc
      have h2 : some p = some row.lfn := hlfn
      refine ⟨row, ?_, (Option.some.inj h2).symm⟩
      show row ∈ res.2.view.files
      rw [hfiles]
      exact List.mem_append_right _ (List.mem_singleton.mpr rfl)
  | error e =>
      have hany := parentRecord_create_error p t e hc
      rw [List.any_eq_true] at hany
      obtain ⟨r, hr, hrl⟩ := hany
      exact ⟨r, hr, by simpa using hrl⟩

theorem createParents_parentage (ps : List String) (t : Tx BufStore) :
    (createParents ps t).view.parentage = t.view.parentage := by
  induction ps generalizing t with
  | nil => rfl
  | cons q qs ih =>
      show (createParents qs (createStep q t)).view.parentage = _
      rw [ih (createStep q t), createStep_parentage]

theorem createParents_files (ps : List String) (t : Tx BufStore) :
    ∃ rest, (createParents ps t).view.files = t.view.files ++ rest := by
  induction ps generalizing t with
  | nil => exact ⟨[], by simp [createParents]⟩
  | cons q qs ih =>
      obtain ⟨rest1, h1⟩ := createStep_files q t
      obtain ⟨rest2, h2⟩ := ih (createStep q t)
      refine ⟨rest1 ++ rest2, ?_⟩
      show (createParents qs (createStep q t)).view.files = _
      rw [h2, h1, List.append_assoc]

theorem createParents_hasRows (ps : List String) (t : Tx BufStore) :
    ∀ p ∈ ps, ∃ r ∈ (createParents ps t).view.files, r.lfn = p := by
  induction ps generalizing t with
  | nil => intro p hp; cases hp
  | cons q qs ih =>
      intro p hp
      rcases List.mem_cons.mp hp with rfl | hp2
      · obtain ⟨r, hr, hrl⟩ := createStep_hasRow p t
        obtain ⟨rest, hrest⟩ := createParents_files qs (createStep p t)
        refine ⟨r, ?_, hrl⟩
        show r ∈ (createParents qs (createStep p t)).view.files
        rw [hrest]
        exact List.mem_append_left _ hr
      · exact ih (createStep q t) p hp2

/-- C6: `addParents` records one lineage edge per declared parent LFN,
whether or not those LFNs exist as records yet; creating the parents
afterwards attaches to the pre-existing edges without duplicating any —
the edge set for the child is still exactly the declared list — and
`load(parentage=True)` on the child then yields exactly the declared
parents as records (one level deep, each resolved to a persisted row with
an assigned id). -/
theorem DBSBufferFile.addParents_lazy (t : Tx BufStore) (l : String)
    (ps : List String) (xrow : FileRow)
    (hnd : ps.Nodup)
    (hxrow : t.view.files.find? (fun r => r.lfn == l) = some xrow)
    (hnoedge : ∀ e ∈ t.view.parentage, e.1 ≠ l) :
    (createParents ps ((blankByLfn l).addParents ps t)).view.parentsOf l = ps ∧
    ((blankByLfn l).load true
        (createParents ps ((blankByLfn l).addParents ps t))).parents.map
      (fun pd => pd.lfn) = ps.map some ∧
    (∀ pd ∈ ((blankByLfn l).load true
        (createParents ps ((blankByLfn l).addParents ps t))).parents,
      pd.id.isSome = true) := by
  have haddp : (blankByLfn l).addParents ps t
      = t.update (t.view.addEdges (ps.map (fun p => (l, p)))) := by
    simp [DBSBufferFile.addParents, blankByLfn, DBSBufferFile.mkFile]
  have ht1par : ((blankByLfn l).addParents ps t).view.parentage
      = setUnion t.view.parentage (ps.map (fun p => (l, p))) := by
    rw [haddp, Tx.view_update]
    rfl
  have ht1files : ((blankByLfn l).addParents ps t).view.files = t.view.files := by
    rw [haddp, Tx.view_update]
    rfl
  have ht2par : (createParents ps ((blankByLfn l).addParents ps t)).view.parentage
      = setUnion t.view.parentage (ps.map (fun p => (l, p))) :=
    (createParents_parentage ps _).trans ht1par
  have hfe : t.view.parentage.filter (fun e => e.1 == l) = [] := by
    rw [List.filter_eq_nil_iff]
    intro e he
    simpa using hnoedge e he
  have hpOf : (createParents ps ((blankByLfn l).addParents ps t)).view.parentsOf l
      = ps := by
    unfold BufStore.parentsOf
    rw [ht2par]
    have hni : ∀ p ∈ ps, (l, p) ∉ t.view.parentage := by
      intro p hp hmem
      exact hnoedge _ hmem rfl
    rw [setUnion_pairs_filter _ _ _ hni hnd, hfe]
    simp
  have ht2files : ∃ rest,
      (createParents ps ((blankByLfn l).addParents ps t)).view.files
        = t.view.files ++ rest := by
    obtain ⟨rest, hr⟩ := createParents_files ps ((blankByLfn l).addParents ps t)
    rw [ht1files] at hr
    exact ⟨rest, hr⟩
  have hfindX : (createParents ps ((blankByLfn l).addParents ps t)).view.files.find?
      (fun r => r.lfn == l) = some xrow := by
    obtain ⟨rest, hr⟩ := ht2files
    rw [hr]
    exact find?_append_some _ _ _ _ hxrow
  have hrowX : (createParents ps ((blankByLfn l).addParents ps t)).view.rowFor
      (blankByLfn l) = some xrow := by
    show ((createParents ps ((blankByLfn l).addParents ps t)).view.files.find?
        (fun r => r.lfn == l)) = some xrow
    exact hfindX
  have hxl : xrow.lfn = l := by
    have := List.find?_some hxrow
    simpa using this
  have hasRows : ∀ p ∈ ps, ∃ r ∈
      (createParents ps ((blankByLfn l).addParents ps t)).view.files, r.lfn = p :=
    createParents_hasRows ps ((blankByLfn l).addParents ps t)
  have hload : ((blankByLfn l).load true
      (createParents ps ((blankByLfn l).addParents ps t))).parents
      = ps.map (fun p =>
          match (createParents ps ((blankByLfn l).addParents ps t)).view.files.find?
              (fun r => r.lfn == p) with
          | some prow =>
              (createParents ps ((blankByLfn l).addParents ps t)).view.loadData prow
          | none => stubParent p) := by
    simp [DBSBufferFile.load, hrowX, hxl, hpOf]
  refine ⟨hpOf, ?_, ?_⟩
  · rw [hload, List.map_map]
    rw [List.map_eq_map_iff]
    intro p hp
    simp only [Function.comp]
    cases hf : (createParents ps ((blankByLfn l).addParents ps t)).view.files.find?
        (fun r => r.lfn == p) with
    | some prow =>
        have hpl := List.find?_some hf
        simp only [BufStore.loadData]
        simpa using hpl
    | none => simp [stubParent]
  · intro pd hpd
    rw [hload] at hpd
    rw [List.mem_map] at hpd
    obtain ⟨p, hp, hpd2⟩ := hpd
    obtain ⟨r0, hr0, hr0l⟩ := hasRows p hp
    cases hf : (createParents ps ((blankByLfn l).addParents ps t)).view.files.find?
        (fun r => r.lfn == p) with
    | some prow =>
        rw [← hpd2, hf]
        simp [BufStore.loadData]
    | none =>
        rw [List.find?_eq_none] at hf
        have : (r0.lfn == p) = true := by simpa using hr0l
        exact absurd this (hf r0 hr0)

/-- Witness for `DBSBufferFile.addParents_lazy`: declaring three
not-yet-existing parents on `x`, then creating them, yields exactly those
three parents — by LFN and as resolved records — when `x` is loaded with
parentage. -/
theorem DBSBufferFile.addParents_lazy_witness :
    (createParents ["p1", "p2", "p3"]
        ((blankByLfn ("x")).addParents ["p1", "p2", "p3"] bufTxX)).view.parentsOf ("x")
      = ["p1", "p2", "p3"] ∧
    ((blankByLfn ("x")).load true (createParents ["p1", "p2", "p3"]
        ((blankByLfn ("x")).addParents ["p1", "p2", "p3"] bufTxX))).parents.map
      (fun pd => pd.lfn) = [some ("p1"), some ("p2"), some ("p3")] := by
  have h := DBSBufferFile.addParents_lazy bufTxX ("x") ["p1", "p2", "p3"] xrowW
    (by decide) (by decide) (by decide)
  exact ⟨h.1, by rw [h.2.1]; rfl⟩
